import Mathlib

/-!
Verification development for the mathvm IR layer
(`src/vm/students/2014/zhirkov/vm/ir/ir.h`).

The C++ node hierarchy is embedded shallowly: every concrete node variant
becomes a Lean structure with the variant's structural fields, pointers to
`Block` objects become explicit `BlockId` handles, and the mutable block
graph becomes a heap `BlockId → Block` transformed by pure state-passing
versions of the mutating member functions (`setTransition`, `link`,
`relink`).  `std::set<const Block*>` (a set of block identities) becomes
`Finset BlockId`; fallible code returns `Except`/`Bool` results.
-/

/-- `int64_t` (payload of `Int` literals); overflow plays no role in the
properties below, so plain `Int` is used. -/
abbrev Int64 := Int

/-- `uint64_t` used as `VarId` by the source (`typedef uint64_t VarId`). -/
abbrev VarId := Nat

/-- Identity of a `Block` object: stands for the C++ `Block*` pointer.
Jump destinations and predecessor sets reference blocks, never own them. -/
abbrev BlockId := Nat

namespace IR

/-- `enum VarType` of the source. -/
inductive VarType where
| VT_Undefined
| VT_Unit
| VT_Int
| VT_Double
| VT_Ptr
| VT_Error
deriving DecidableEq

/-- `enum IrType` (`IrElement::IrType`): the closed discriminant set
generated by `FOR_IR` plus `IT_INVALID`. -/
inductive IrType where
| IT_BinOp
| IT_UnOp
| IT_Variable
| IT_Return
| IT_Phi
| IT_Int
| IT_Double
| IT_Ptr
| IT_Block
| IT_Assignment
| IT_Call
| IT_Print
| IT_Function
| IT_JumpAlways
| IT_JumpCond
| IT_WriteRef
| IT_ReadRef
| IT_INVALID
deriving DecidableEq

/-- `struct Variable : Atom { const VarId id; }`. -/
structure Variable where
  id : VarId
deriving DecidableEq

/-- `struct Int : Atom { const int64_t value; }`. -/
structure Int where
  value : Int64

/-- `struct Double : Atom { const double value; }`. -/
structure Double where
  value : Float

/-- `struct Ptr : Atom { const uint64_t value; const bool isPooledString; }`. -/
structure Ptr where
  value : Nat
  isPooledString : Bool

/-- `struct ReadRef : Atom { const VarId refId; }`. -/
structure ReadRef where
  refId : VarId

/-- The `Atom` layer of the hierarchy: expressions that are already value
references (`Variable`, literals, `ReadRef`). -/
inductive Atom where
| var (v : Variable)
| int (i : Int)
| double (d : Double)
| ptr (p : Ptr)
| readRef (r : ReadRef)

/-- `BinOp::Type` (`FOR_IR_BINOP` tags plus `BO_INVALID`). -/
inductive BinOpType where
| BO_ADD | BO_FADD | BO_SUB | BO_FSUB | BO_MUL | BO_FMUL | BO_DIV | BO_FDIV
| BO_MOD | BO_LT | BO_FLT | BO_LE | BO_FLE | BO_EQ | BO_NEQ | BO_OR
| BO_AND | BO_LOR | BO_LAND | BO_XOR | BO_INVALID
deriving DecidableEq

/-- `UnOp::Type` (`FOR_IR_UNOP` tags plus `UO_INVALID`). -/
inductive UnOpType where
| UO_CAST_I2D | UO_CAST_D2I | UO_NEG | UO_FNEG | UO_NOT | UO_INVALID
deriving DecidableEq

/-- `struct BinOp : Expression { const Atom* left; const Atom* right; const Type type; }`. -/
structure BinOp where
  left : Atom
  right : Atom
  type : BinOpType

/-- `struct UnOp : Expression { const Atom* operand; const Type type; }`. -/
structure UnOp where
  operand : Atom
  type : UnOpType

/-- `struct Call : Expression { const uint16_t funId; vector<Atom const*> params; vector<VarId> refParams; }`. -/
structure Call where
  funId : Nat
  params : List Atom
  refParams : List VarId

/-- The `Expression` layer: atoms plus the compound value-producing nodes. -/
inductive Expression where
| atom (a : Atom)
| binOp (b : BinOp)
| unOp (u : UnOp)
| call (c : Call)

/-- `struct Assignment : Statement { const Variable* var; const Expression* value; }`. -/
structure Assignment where
  var : Variable
  value : Expression

/-- `struct Return : Statement { const Atom* atom; }`. -/
structure Return where
  atom : Atom

/-- `struct Phi : Statement { const Variable* var; std::set<const Variable*> vars; }`.
`vars` is a set of pointers to distinct `Variable` objects; modelled as a list
of the pointed-to variables. -/
structure Phi where
  var : Variable
  vars : List Variable

/-- `struct Print : Statement { const Atom* atom; }`. -/
structure Print where
  atom : Atom

/-- `struct WriteRef : Statement { const Atom* atom; const VarId refId; }`. -/
structure WriteRef where
  atom : Atom
  refId : VarId

/-- `struct JumpAlways : Jump { Block* const destination; }`. -/
structure JumpAlways where
  destination : BlockId

/-- `struct JumpCond : Jump { Block* const yes; Block* const no; const Atom* condition; }`. -/
structure JumpCond where
  yes : BlockId
  no : BlockId
  condition : Atom

/-- The `Jump` layer (`Jump : Statement`): the two control-transfer variants. -/
inductive Jump where
| always (j : JumpAlways)
| cond (j : JumpCond)

/-- `JumpAlways::isJumpAlways` override vs. the `HELPER` default on `JumpCond`. -/
def Jump.isJumpAlways : Jump → Bool
| .always _ => true
| .cond _ => false

/-- The `Statement` layer: nodes executed for effect inside a `Block`
(`Jump` included, since `Jump : Statement` in the source). -/
inductive Statement where
| assignment (a : Assignment)
| ret (r : Return)
| phi (p : Phi)
| print (p : Print)
| writeRef (w : WriteRef)
| jump (j : Jump)

/-- `struct Block : IrElement`: name, private `_transition` (NULL ⇔ terminal),
derived `predecessors` set (of block identities), owned statement list
`contents`. -/
structure Block where
  name : String
  transition : Option Jump
  predecessors : Finset BlockId
  contents : List Statement

/-- `Block::getTransition`. -/
def Block.getTransition (b : Block) : Option Jump :=
  b.transition

/-- `Block::isLastBlock`: `getTransition() == NULL`. -/
def Block.isLastBlock (b : Block) : Bool :=
  b.getTransition.isNone

/-- `Block::isEmpty`: `contents.size() == 0 && !isLastBlock() &&
getTransition()->isJumpAlways()`.  The C++ `&&` short-circuits, so the
transition is only dereferenced when it is non-NULL; the total embedding
returns `false` on the `none` branch accordingly. -/
def Block.isEmpty (b : Block) : Bool :=
  b.contents.isEmpty && !b.isLastBlock &&
    (match b.getTransition with
     | some j => j.isJumpAlways
     | none => false)

/-- `Block::isEntry`: `predecessors.size() == 0`. -/
def Block.isEntry (b : Block) : Bool :=
  b.predecessors.card == 0

/-- `Block::addPredecessor`: `predecessors.insert(block)`. -/
def Block.addPredecessor (b : Block) (p : BlockId) : Block :=
  { b with predecessors := insert p b.predecessors }

/-- `Block::removePredecessor`: `predecessors.erase(block)`. -/
def Block.removePredecessor (b : Block) (p : BlockId) : Block :=
  { b with predecessors := b.predecessors.erase p }

/-- The mutable block graph: block identity (`Block*`) to current block state. -/
abbrev Heap := BlockId → Block

/-- Point update of the heap: mutate the block object named `i`. -/
def updBlock (σ : Heap) (i : BlockId) (f : Block → Block) : Heap :=
  fun j => if j = i then f (σ j) else σ j

/-- The destination block identities named by a `Jump`
(`JumpAlways.destination`, or `JumpCond.yes`/`no`). -/
def Jump.destinations : Jump → List BlockId
| .always j => [j.destination]
| .cond j => [j.yes, j.no]

/-- The destinations of a block's current transition (empty when terminal). -/
def Block.transitionDests (b : Block) : List BlockId :=
  match b.getTransition with
  | none => []
  | some j => j.destinations

/-- `Block::setTransition(Jump* jmp)`: store `jmp`; if non-NULL, register
this block as predecessor of each destination.  Heap-level because it
mutates the destination blocks. -/
def setTransition (σ : Heap) (self : BlockId) (jmp : Option Jump) : Heap :=
  let σ1 := updBlock σ self (fun b => { b with transition := jmp })
  match jmp with
  | none => σ1
  | some (.always j) => updBlock σ1 j.destination (fun b => b.addPredecessor self)
  | some (.cond j) =>
      updBlock (updBlock σ1 j.yes (fun b => b.addPredecessor self)) j.no
        (fun b => b.addPredecessor self)

/-- `Block::link(Block* next)`: delete any prior transition, install a fresh
`JumpAlways(next)`, register `self` as predecessor of `next`.  The deleted
prior jump is a value here, so its release is its disappearance from the
state. -/
def link (σ : Heap) (self next : BlockId) : Heap :=
  let σ1 := updBlock σ self (fun b => { b with transition := some (.always ⟨next⟩) })
  updBlock σ1 next (fun b => b.addPredecessor self)

/-- `Block::link(JumpCond* cond)`: delete any prior transition, install
`cond`, register `self` as predecessor of both destinations. -/
def linkCond (σ : Heap) (self : BlockId) (cond : JumpCond) : Heap :=
  let σ1 := updBlock σ self (fun b => { b with transition := some (.cond cond) })
  updBlock (updBlock σ1 cond.yes (fun b => b.addPredecessor self)) cond.no
    (fun b => b.addPredecessor self)

/-- Replace every destination equal to `oldC` by `newC` in a jump
(the rewrite `relink` performs on this block's transition). -/
def Jump.replaceDest : Jump → BlockId → BlockId → Jump
| .always j, oldC, newC => .always ⟨if j.destination = oldC then newC else j.destination⟩
| .cond j, oldC, newC =>
    .cond ⟨if j.yes = oldC then newC else j.yes,
           if j.no = oldC then newC else j.no, j.condition⟩

/-- Modelled from the spec: the body of `bool Block::relink(Block*, Block*)`
is only declared in `src` (ir.h:452), its definition is not part of the
sources.  Spec §4.2: rewrite this block's jump so that every edge previously
pointing at `oldChild` now points at `newChild`; atomically remove this
block from `oldChild.predecessors` and add it to `newChild.predecessors`;
fail (report "no such edge") when `oldChild` is not actually a destination
of this block's jump, leaving the graph unchanged (§7: a failed structural
edit must leave the graph exactly as it was). -/
def relink (σ : Heap) (self oldChild newChild : BlockId) : Bool × Heap :=
  match (σ self).transition with
  | none => (false, σ)
  | some j =>
      if oldChild ∈ j.destinations then
        let σ1 := updBlock σ self
          (fun b => { b with transition := some (j.replaceDest oldChild newChild) })
        let σ2 := updBlock σ1 oldChild (fun b => b.removePredecessor self)
        let σ3 := updBlock σ2 newChild (fun b => b.addPredecessor self)
        (true, σ3)
      else (false, σ)

/-- The bidirectional predecessor-consistency invariant over a block domain:
`b` is a destination of `p`'s current jump iff `p ∈ b.predecessors`. -/
def predConsistent (σ : Heap) (dom : Finset BlockId) : Prop :=
  ∀ p ∈ dom, ∀ b ∈ dom, b ∈ (σ p).transitionDests ↔ p ∈ (σ b).predecessors

instance (σ : Heap) (dom : Finset BlockId) : Decidable (predConsistent σ dom) := by
  unfold predConsistent; infer_instance

/-- `class Function : IrElement`: name, `uint16_t` id, entry block handle,
the two parameter-id lists, memory cells, return type, and the optional
native address (`void const*`, NULL ⇔ non-native). -/
structure Function where
  name : String
  id : Nat
  entry : BlockId
  parametersIds : List VarId
  refParameterIds : List VarId
  memoryCells : List VarId
  returnType : VarType
  nativeAddress : Option Nat

/-- `Function::isNative`: `nativeAddress != NULL`. -/
def Function.isNative (f : Function) : Bool :=
  f.nativeAddress.isSome

/-- `Function::arguments`: `parametersIds.size() + refParameterIds.size()`. -/
def Function.arguments (f : Function) : Nat :=
  f.parametersIds.length + f.refParameterIds.length

/-- `Function::argument(size_t idx)`: index the ordinary parameters first,
then (after `idx -= parametersIds.size()`) the ref parameters; otherwise
throw `std::out_of_range` with the stream message built from `arguments()`
and the *decremented* `idx`.  The throw becomes an `Except.error`. -/
def Function.argument (f : Function) (idx : Nat) : Except String VarId :=
  if idx < f.parametersIds.length then .ok (f.parametersIds.getD idx 0)
  else
    let idx2 := idx - f.parametersIds.length
    if idx2 < f.refParameterIds.length then .ok (f.refParameterIds.getD idx2 0)
    else .error ("Argument index is out of range: total args: " ++
      toString f.arguments ++ " index " ++ toString idx2)

/-- `SimpleIr::VarMeta`; `Function const* pointsTo` becomes an optional
function id (NULL ⇔ `none`). -/
structure VarMeta where
  id : VarId
  isSourceVar : Bool
  isReference : Bool
  originId : VarId
  pointsTo : Option Nat
  offset : Nat
  type : VarType

/-- `struct SimpleIr`: string pool, owned function list, flat `VarMeta` table. -/
structure SimpleIr where
  pool : List String
  functions : List Function
  varMeta : List VarMeta

/-- `SimpleIr::addFunction`: `functions.push_back(rec)`. -/
def SimpleIr.addFunction (ir : SimpleIr) (rec : Function) : SimpleIr :=
  { ir with functions := ir.functions ++ [rec] }

/-- `SimpleIr::~SimpleIr` (ir.h:611): `for (auto f : functions) delete f;` —
the sequence of function objects the container destructor releases. -/
def SimpleIr.releasedFunctions (ir : SimpleIr) : List Function :=
  ir.functions

/-- The root of the hierarchy: a concrete node is exactly one of the 17
variants of the closed `FOR_IR` set. -/
inductive IrElement where
| binOp (x : BinOp)
| unOp (x : UnOp)
| var (x : Variable)
| ret (x : Return)
| phi (x : Phi)
| int (x : Int)
| double (x : Double)
| ptr (x : Ptr)
| block (x : Block)
| assignment (x : Assignment)
| call (x : Call)
| print (x : Print)
| function (x : Function)
| jumpAlways (x : JumpAlways)
| jumpCond (x : JumpCond)
| writeRef (x : WriteRef)
| readRef (x : ReadRef)

namespace IrElement

/-- `getType` as overridden by `IR_COMMON_FUNCTIONS(ir)`: each concrete
variant reports its own discriminant `IT_ir`. -/
def getType : IrElement → IrType
| binOp _ => .IT_BinOp
| unOp _ => .IT_UnOp
| var _ => .IT_Variable
| ret _ => .IT_Return
| phi _ => .IT_Phi
| int _ => .IT_Int
| double _ => .IT_Double
| ptr _ => .IT_Ptr
| block _ => .IT_Block
| assignment _ => .IT_Assignment
| call _ => .IT_Call
| print _ => .IT_Print
| function _ => .IT_Function
| jumpAlways _ => .IT_JumpAlways
| jumpCond _ => .IT_JumpCond
| writeRef _ => .IT_WriteRef
| readRef _ => .IT_ReadRef

/-- `isBinOp`: `IR_COMMON_FUNCTIONS` override (`true` on `BinOp`) vs. the
`HELPER` base default (`false`); likewise for the 16 queries below. -/
def isBinOp : IrElement → Bool
| binOp _ => true
| _ => false

def isUnOp : IrElement → Bool
| unOp _ => true
| _ => false

def isVariable : IrElement → Bool
| var _ => true
| _ => false

def isReturn : IrElement → Bool
| ret _ => true
| _ => false

def isPhi : IrElement → Bool
| phi _ => true
| _ => false

def isInt : IrElement → Bool
| int _ => true
| _ => false

def isDouble : IrElement → Bool
| double _ => true
| _ => false

def isPtr : IrElement → Bool
| ptr _ => true
| _ => false

def isBlock : IrElement → Bool
| block _ => true
| _ => false

def isAssignment : IrElement → Bool
| assignment _ => true
| _ => false

def isCall : IrElement → Bool
| call _ => true
| _ => false

def isPrint : IrElement → Bool
| print _ => true
| _ => false

def isFunction : IrElement → Bool
| function _ => true
| _ => false

def isJumpAlways : IrElement → Bool
| jumpAlways _ => true
| _ => false

def isJumpCond : IrElement → Bool
| jumpCond _ => true
| _ => false

def isWriteRef : IrElement → Bool
| writeRef _ => true
| _ => false

def isReadRef : IrElement → Bool
| readRef _ => true
| _ => false

/-- `asBinOp`: `IR_COMMON_FUNCTIONS` override (`this` on `BinOp`) vs. the
`HELPER` base default (`NULL`, i.e. `none`); likewise for the 16 below. -/
def asBinOp : IrElement → Option BinOp
| binOp x => some x
| _ => none

def asUnOp : IrElement → Option UnOp
| unOp x => some x
| _ => none

def asVariable : IrElement → Option Variable
| var x => some x
| _ => none

def asReturn : IrElement → Option Return
| ret x => some x
| _ => none

def asPhi : IrElement → Option Phi
| phi x => some x
| _ => none

def asInt : IrElement → Option Int
| int x => some x
| _ => none

def asDouble : IrElement → Option Double
| double x => some x
| _ => none

def asPtr : IrElement → Option Ptr
| ptr x => some x
| _ => none

def asBlock : IrElement → Option Block
| block x => some x
| _ => none

def asAssignment : IrElement → Option Assignment
| assignment x => some x
| _ => none

def asCall : IrElement → Option Call
| call x => some x
| _ => none

def asPrint : IrElement → Option Print
| print x => some x
| _ => none

def asFunction : IrElement → Option Function
| function x => some x
| _ => none

def asJumpAlways : IrElement → Option JumpAlways
| jumpAlways x => some x
| _ => none

def asJumpCond : IrElement → Option JumpCond
| jumpCond x => some x
| _ => none

def asWriteRef : IrElement → Option WriteRef
| writeRef x => some x
| _ => none

def asReadRef : IrElement → Option ReadRef
| readRef x => some x
| _ => none

end IrElement

/-! ### Helper lemmas on the heap operations -/

@[simp] theorem updBlock_same (σ : Heap) (i : BlockId) (f : Block → Block) :
    updBlock σ i f i = f (σ i) := by
  simp [updBlock]

theorem updBlock_other (σ : Heap) (i : BlockId) (f : Block → Block) {j : BlockId}
    (h : j ≠ i) : updBlock σ i f j = σ j := by
  simp [updBlock, h]

@[simp] theorem addPredecessor_transition (b : Block) (p : BlockId) :
    (b.addPredecessor p).transition = b.transition := rfl

@[simp] theorem addPredecessor_predecessors (b : Block) (p : BlockId) :
    (b.addPredecessor p).predecessors = insert p b.predecessors := rfl

@[simp] theorem removePredecessor_transition (b : Block) (p : BlockId) :
    (b.removePredecessor p).transition = b.transition := rfl

@[simp] theorem removePredecessor_predecessors (b : Block) (p : BlockId) :
    (b.removePredecessor p).predecessors = b.predecessors.erase p := rfl

theorem transition_updBlock_pres (σ : Heap) (i x : BlockId) (f : Block → Block)
    (hf : ∀ b, (f b).transition = b.transition) :
    ((updBlock σ i f) x).transition = (σ x).transition := by
  unfold updBlock; split <;> simp [hf]

theorem preds_updBlock_pres (σ : Heap) (i x : BlockId) (f : Block → Block)
    (hf : ∀ b, (f b).predecessors = b.predecessors) :
    ((updBlock σ i f) x).predecessors = (σ x).predecessors := by
  unfold updBlock; split <;> simp [hf]

theorem transition_updBlock_addPred (σ : Heap) (i p x : BlockId) :
    ((updBlock σ i (fun b => b.addPredecessor p)) x).transition = (σ x).transition := by
  unfold updBlock; split <;> rfl

theorem transition_updBlock_removePred (σ : Heap) (i p x : BlockId) :
    ((updBlock σ i (fun b => b.removePredecessor p)) x).transition = (σ x).transition := by
  unfold updBlock; split <;> rfl

theorem preds_updBlock_set (σ : Heap) (i x : BlockId) (t : Option Jump) :
    ((updBlock σ i (fun b => { b with transition := t })) x).predecessors
      = (σ x).predecessors := by
  unfold updBlock; split <;> rfl

theorem transitionDests_of_none {b : Block} (h : b.transition = none) :
    b.transitionDests = [] := by
  simp [Block.transitionDests, Block.getTransition, h]

theorem transitionDests_of_some {b : Block} {j : Jump} (h : b.transition = some j) :
    b.transitionDests = j.destinations := by
  simp [Block.transitionDests, Block.getTransition, h]

theorem link_transition (σ : Heap) (s n x : BlockId) :
    ((link σ s n) x).transition
      = if x = s then some (Jump.always ⟨n⟩) else (σ x).transition := by
  unfold link updBlock
  dsimp only
  split_ifs <;> simp_all

theorem mem_link_predecessors (σ : Heap) (s n x q : BlockId) :
    q ∈ ((link σ s n) x).predecessors
      ↔ q ∈ (σ x).predecessors ∨ (q = s ∧ x = n) := by
  unfold link updBlock
  dsimp only
  split_ifs <;> simp_all <;> tauto

theorem linkCond_transition (σ : Heap) (s x : BlockId) (jc : JumpCond) :
    ((linkCond σ s jc) x).transition
      = if x = s then some (Jump.cond jc) else (σ x).transition := by
  unfold linkCond updBlock
  dsimp only
  split_ifs <;> simp_all

theorem mem_linkCond_predecessors (σ : Heap) (s x q : BlockId) (jc : JumpCond) :
    q ∈ ((linkCond σ s jc) x).predecessors
      ↔ q ∈ (σ x).predecessors ∨ (q = s ∧ (x = jc.yes ∨ x = jc.no)) := by
  unfold linkCond updBlock
  dsimp only
  split_ifs <;> simp_all <;> tauto

theorem relink_eq_of_none {σ : Heap} {p : BlockId} (oldC newC : BlockId)
    (htr : (σ p).transition = none) :
    relink σ p oldC newC = (false, σ) := by
  unfold relink; rw [htr]

theorem relink_eq_of_not_dest {σ : Heap} {p : BlockId} {j : Jump}
    (oldC newC : BlockId) (htr : (σ p).transition = some j)
    (ho : oldC ∉ j.destinations) :
    relink σ p oldC newC = (false, σ) := by
  unfold relink; rw [htr]; simp [ho]

theorem relink_eq_of_dest {σ : Heap} {p : BlockId} {j : Jump}
    (oldC newC : BlockId) (htr : (σ p).transition = some j)
    (ho : oldC ∈ j.destinations) :
    relink σ p oldC newC =
      (true,
        updBlock
          (updBlock
            (updBlock σ p
              (fun blk => { blk with transition := some (j.replaceDest oldC newC) }))
            oldC (fun blk => blk.removePredecessor p))
          newC (fun blk => blk.addPredecessor p)) := by
  unfold relink; rw [htr]; simp [ho]

theorem transitionDests_congr {b b' : Block} (h : b.transition = b'.transition) :
    b.transitionDests = b'.transitionDests := by
  unfold Block.transitionDests Block.getTransition
  rw [h]

theorem link_transitionDests (σ : Heap) (s n x : BlockId) :
    ((link σ s n) x).transitionDests = if x = s then [n] else (σ x).transitionDests := by
  by_cases hx : x = s
  · rw [if_pos hx]
    have h1 : ((link σ s n) x).transition = some (.always ⟨n⟩) := by
      rw [link_transition]; simp [hx]
    simp [Block.transitionDests, Block.getTransition, h1, Jump.destinations]
  · have h1 : ((link σ s n) x).transition = (σ x).transition := by
      rw [link_transition]; simp [hx]
    rw [if_neg hx]
    exact transitionDests_congr h1

theorem linkCond_transitionDests (σ : Heap) (s x : BlockId) (jc : JumpCond) :
    ((linkCond σ s jc) x).transitionDests
      = if x = s then [jc.yes, jc.no] else (σ x).transitionDests := by
  by_cases hx : x = s
  · rw [if_pos hx]
    have h1 : ((linkCond σ s jc) x).transition = some (.cond jc) := by
      rw [linkCond_transition]; simp [hx]
    simp [Block.transitionDests, Block.getTransition, h1, Jump.destinations]
  · have h1 : ((linkCond σ s jc) x).transition = (σ x).transition := by
      rw [linkCond_transition]; simp [hx]
    rw [if_neg hx]
    exact transitionDests_congr h1

theorem mem_replaceDest_new {j : Jump} {o : BlockId} (n : BlockId)
    (ho : o ∈ j.destinations) : n ∈ (j.replaceDest o n).destinations := by
  cases j with
  | always ja =>
      simp [Jump.destinations] at ho
      simp [Jump.destinations, Jump.replaceDest, ho]
  | cond jc =>
      simp [Jump.destinations] at ho
      rcases ho with ho | ho <;> simp [Jump.destinations, Jump.replaceDest, ho]

theorem not_mem_replaceDest {j : Jump} {o n : BlockId} (hon : o ≠ n) :
    o ∉ (j.replaceDest o n).destinations := by
  cases j with
  | always ja =>
      simp only [Jump.destinations, Jump.replaceDest, List.mem_singleton]
      split_ifs with h <;> simp_all
      exact fun hh => h hh.symm
  | cond jc =>
      simp [Jump.destinations, Jump.replaceDest]
      constructor <;> split_ifs with h <;> simp_all <;> exact fun hh => h hh.symm

theorem mem_replaceDest_other {j : Jump} {o n b : BlockId} (hbn : b ≠ n) (hbo : b ≠ o) :
    b ∈ (j.replaceDest o n).destinations ↔ b ∈ j.destinations := by
  cases j with
  | always ja =>
      simp only [Jump.destinations, Jump.replaceDest, List.mem_singleton]
      split_ifs with h <;> simp_all
  | cond jc =>
      simp only [Jump.destinations, Jump.replaceDest, List.mem_cons,
        List.mem_singleton, List.not_mem_nil, or_false]
      split_ifs with h1 h2 h2 <;> simp_all

theorem relink_success_dests {σ : Heap} {p : BlockId} {j : Jump} {oldC : BlockId}
    (newC : BlockId) (htr : (σ p).transition = some j) (ho : oldC ∈ j.destinations)
    (x : BlockId) :
    ((relink σ p oldC newC).2 x).transitionDests
      = if x = p then (j.replaceDest oldC newC).destinations
        else (σ x).transitionDests := by
  rw [relink_eq_of_dest oldC newC htr ho]
  dsimp only
  have h1 : (updBlock (updBlock (updBlock σ p (fun blk => { blk with transition := some (j.replaceDest oldC newC) })) oldC (fun blk => blk.removePredecessor p)) newC (fun blk => blk.addPredecessor p) x).transition = if x = p then some (j.replaceDest oldC newC) else (σ x).transition := by
    rw [transition_updBlock_addPred, transition_updBlock_removePred]
    unfold updBlock
    split <;> rfl
  by_cases hx : x = p
  · rw [if_pos hx] at h1
    rw [if_pos hx]
    simp [Block.transitionDests, Block.getTransition, h1]
  · rw [if_neg hx] at h1
    rw [if_neg hx]
    exact transitionDests_congr h1

theorem relink_success_preds {σ : Heap} {p : BlockId} {j : Jump} {oldC : BlockId}
    (newC : BlockId) (htr : (σ p).transition = some j) (ho : oldC ∈ j.destinations)
    (x q : BlockId) :
    q ∈ ((relink σ p oldC newC).2 x).predecessors
      ↔ ((q = p ∧ x = newC)
          ∨ (q ∈ (σ x).predecessors ∧ ¬(x = oldC ∧ q = p))) := by
  rw [relink_eq_of_dest oldC newC htr ho]
  dsimp only
  unfold updBlock
  dsimp only
  split_ifs <;> simp_all <;> tauto

/-! ### Reachability in the block graph (teardown model) -/

/-- One closure step of the successor relation: a set of blocks together
with every destination of their current jumps. -/
def blockStep (σ : Heap) (s : Finset BlockId) : Finset BlockId :=
  s ∪ s.biUnion (fun b => ((σ b).transitionDests).toFinset)

/-- Reachability along jump edges: the blocks reachable from `a`
(reflexive-transitive closure of the destination relation), including
blocks reachable only through loop back-edges. -/
inductive Reaches (σ : Heap) : BlockId → BlockId → Prop
| refl (b : BlockId) : Reaches σ b b
| step {a b c : BlockId} : Reaches σ a b → c ∈ (σ b).transitionDests → Reaches σ a c

/-- The block graph is closed inside `dom`: every jump from a block of
`dom` stays in `dom`. -/
def graphClosed (σ : Heap) (dom : Finset BlockId) : Prop :=
  ∀ b ∈ dom, ∀ d ∈ (σ b).transitionDests, d ∈ dom

instance (σ : Heap) (dom : Finset BlockId) : Decidable (graphClosed σ dom) := by
  unfold graphClosed; infer_instance

/-- `k`-fold closure of `{e}` under the successor relation. -/
def reachIter (σ : Heap) (e : BlockId) (k : Nat) : Finset BlockId :=
  (blockStep σ)^[k] {e}

/-- Modelled from the spec: `Function::~Function` is only declared in src
(ir.h:498); its body is not among the sources.  Spec §3/§4.3/§8: teardown is
driven from the Function, which enumerates every Block reachable from its
entry exactly once and releases it (each `Block::~Block`, ir.h:434-438 in
src, then frees that block's own statements and jump).  The reachable set
is the fixpoint of the successor closure, attained after `dom.card` steps;
the release list enumerates it without duplicates. -/
def Function.releaseList (σ : Heap) (dom : Finset BlockId) (f : Function) :
    List BlockId :=
  (reachIter σ f.entry dom.card).sort (· ≤ ·)

theorem subset_blockStep (σ : Heap) (s : Finset BlockId) : s ⊆ blockStep σ s :=
  fun _ hx => Finset.mem_union_left _ hx

theorem reachIter_zero (σ : Heap) (e : BlockId) : reachIter σ e 0 = {e} := rfl

theorem reachIter_succ (σ : Heap) (e : BlockId) (k : Nat) :
    reachIter σ e (k + 1) = blockStep σ (reachIter σ e k) := by
  unfold reachIter
  exact Function.iterate_succ_apply' _ _ _

theorem reachIter_subset_succ (σ : Heap) (e : BlockId) (k : Nat) :
    reachIter σ e k ⊆ reachIter σ e (k + 1) := by
  rw [reachIter_succ]
  exact subset_blockStep _ _

theorem reachIter_mono (σ : Heap) (e : BlockId) {k l : Nat} (h : k ≤ l) :
    reachIter σ e k ⊆ reachIter σ e l := by
  induction l with
  | zero =>
      have : k = 0 := Nat.le_zero.mp h
      subst this
      exact fun x hx => hx
  | succ l ih =>
      rcases Nat.lt_or_ge k (l + 1) with hk | hk
      · exact fun x hx => reachIter_subset_succ σ e l (ih (Nat.lt_succ_iff.mp hk) hx)
      · have : k = l + 1 := Nat.le_antisymm h hk
        subst this
        exact fun x hx => hx

theorem blockStep_subset_dom {σ : Heap} {dom : Finset BlockId}
    (hcl : graphClosed σ dom) {s : Finset BlockId} (hs : s ⊆ dom) :
    blockStep σ s ⊆ dom := by
  intro x hx
  rcases Finset.mem_union.mp hx with hx | hx
  · exact hs hx
  · rcases Finset.mem_biUnion.mp hx with ⟨b, hb, hxb⟩
    exact hcl b (hs hb) x (List.mem_toFinset.mp hxb)

theorem reachIter_subset_dom {σ : Heap} {dom : Finset BlockId} {e : BlockId}
    (hcl : graphClosed σ dom) (he : e ∈ dom) (k : Nat) :
    reachIter σ e k ⊆ dom := by
  induction k with
  | zero =>
      intro x hx
      rw [reachIter_zero, Finset.mem_singleton] at hx
      exact hx ▸ he
  | succ k ih =>
      rw [reachIter_succ]
      exact blockStep_subset_dom hcl ih

theorem reachIter_stab {σ : Heap} {e : BlockId} {k : Nat}
    (hfix : blockStep σ (reachIter σ e k) = reachIter σ e k) (j : Nat) :
    reachIter σ e (k + j) = reachIter σ e k := by
  induction j with
  | zero => rfl
  | succ j ih => rw [← Nat.add_assoc, reachIter_succ, ih, hfix]

theorem reachIter_exists_fix {σ : Heap} {dom : Finset BlockId} {e : BlockId}
    (hcl : graphClosed σ dom) (he : e ∈ dom) :
    ∃ k ≤ dom.card, blockStep σ (reachIter σ e k) = reachIter σ e k := by
  by_contra hcon
  push_neg at hcon
  have claim : ∀ k, k ≤ dom.card + 1 → k < (reachIter σ e k).card := by
    intro k
    induction k with
    | zero =>
        intro _
        rw [reachIter_zero]
        simp
    | succ k ih =>
        intro hk
        have hk' : k ≤ dom.card := by omega
        have hne : reachIter σ e k ≠ reachIter σ e (k + 1) := by
          intro heq
          exact hcon k hk' (by rw [← reachIter_succ, ← heq])
        have hss : reachIter σ e k ⊂ reachIter σ e (k + 1) :=
          lt_of_le_of_ne (reachIter_subset_succ σ e k) hne
        have hlt := Finset.card_lt_card hss
        have := ih (by omega)
        omega
  have h2 := claim (dom.card + 1) (le_refl _)
  have h3 : (reachIter σ e (dom.card + 1)).card ≤ dom.card :=
    Finset.card_le_card (reachIter_subset_dom hcl he (dom.card + 1))
  omega

theorem reachIter_subset_final {σ : Heap} {dom : Finset BlockId} {e : BlockId}
    (hcl : graphClosed σ dom) (he : e ∈ dom) (k : Nat) :
    reachIter σ e k ⊆ reachIter σ e dom.card := by
  obtain ⟨k0, hk0, hfix⟩ := reachIter_exists_fix hcl he
  rcases Nat.le_total k dom.card with hk | hk
  · exact reachIter_mono σ e hk
  · have h1 : reachIter σ e k = reachIter σ e k0 := by
      have : k = k0 + (k - k0) := by omega
      rw [this]
      exact reachIter_stab hfix _
    rw [h1]
    exact reachIter_mono σ e hk0

theorem mem_reachIter_reaches {σ : Heap} {e : BlockId} :
    ∀ k, ∀ x ∈ reachIter σ e k, Reaches σ e x := by
  intro k
  induction k with
  | zero =>
      intro x hx
      rw [reachIter_zero, Finset.mem_singleton] at hx
      subst hx
      exact Reaches.refl _
  | succ k ih =>
      intro x hx
      rw [reachIter_succ] at hx
      rcases Finset.mem_union.mp hx with hx | hx
      · exact ih x hx
      · rcases Finset.mem_biUnion.mp hx with ⟨b, hb, hxb⟩
        exact Reaches.step (ih b hb) (List.mem_toFinset.mp hxb)

theorem reaches_mem_reachIter {σ : Heap} {e x : BlockId}
    (h : Reaches σ e x) : ∃ k, x ∈ reachIter σ e k := by
  induction h with
  | refl => exact ⟨0, by rw [reachIter_zero]; exact Finset.mem_singleton_self _⟩
  | step hr hd ih =>
      obtain ⟨k, hk⟩ := ih
      refine ⟨k + 1, ?_⟩
      rw [reachIter_succ]
      exact Finset.mem_union_right _
        (Finset.mem_biUnion.mpr ⟨_, hk, List.mem_toFinset.mpr hd⟩)

/-! ### Concrete fixtures used by the example parts of the claims -/

/-- An empty terminal block (no statements, no transition). -/
def termBlock : Block := ⟨"exit", none, ∅, []⟩

/-- A pure forwarding block: no statements, one unconditional jump. -/
def fwdBlock : Block := ⟨"fwd", some (.always ⟨1⟩), ∅, []⟩

/-- The forwarding block with one `Print` statement added. -/
def fwdBlockPrint : Block := { fwdBlock with contents := [.print ⟨.int ⟨0⟩⟩] }

/-- A heap of empty terminal blocks: the starting state for the examples. -/
def heap0 : Heap := fun _ => termBlock

/-- Heap for the relink example: block 0 jumps conditionally to 1 (`yes`)
and 2 (`no`); the predecessor index is consistent. -/
def relinkHeap : Heap := fun i =>
  if i = 0 then ⟨"P", some (.cond ⟨1, 2, .int ⟨0⟩⟩), ∅, []⟩
  else if i = 1 then ⟨"A", none, {0}, []⟩
  else if i = 2 then ⟨"B", none, {0}, []⟩
  else ⟨"C", none, ∅, []⟩

/-- Function fixture with two ordinary parameters and one ref parameter. -/
def exFun21 : Function := ⟨"f", 0, 0, [10, 11], [12], [], .VT_Int, none⟩

/-- Function fixture with one ordinary parameter and no ref parameters. -/
def exFun1 : Function := ⟨"g", 1, 0, [10], [], [], .VT_Int, none⟩

/-! ### Claim theorems -/

/-- C6: `Block::isEmpty` returns `true` iff the block has zero statements,
has a transition (is not terminal), and that transition is an unconditional
jump; a block with no statements and a single unconditional jump reports
`true`, the same block with one `Print` statement added reports `false`. -/
theorem isEmpty_classification :
    (∀ b : Block, b.isEmpty = true ↔
      (b.contents = [] ∧ ∃ j : JumpAlways, b.getTransition = some (Jump.always j)))
    ∧ fwdBlock.isEmpty = true ∧ fwdBlockPrint.isEmpty = false := by
  refine ⟨fun b => ?_, rfl, rfl⟩
  cases htr : b.transition with
  | none =>
      simp [Block.isEmpty, Block.isLastBlock, Block.getTransition, htr]
  | some j =>
      cases j <;>
        simp [Block.isEmpty, Block.isLastBlock, Block.getTransition, htr,
          Jump.isJumpAlways, List.isEmpty_iff]

/-- C10: `setTransition(NULL)` makes the block terminal (`isLastBlock` true,
`getTransition` NULL), changes no block's predecessor set, and in this state
`isEmpty` returns `false` (the C++ `&&` short-circuits before dereferencing
the absent transition; the embedding's total `isEmpty` yields `false` on the
`none` branch). -/
theorem setTransition_none_spec :
    ∀ (σ : Heap) (p : BlockId),
      ((setTransition σ p none) p).getTransition = none
      ∧ ((setTransition σ p none) p).isLastBlock = true
      ∧ (∀ b : BlockId, ((setTransition σ p none) b).predecessors = (σ b).predecessors)
      ∧ ((setTransition σ p none) p).isEmpty = false := by
  intro σ p
  have htr : ((setTransition σ p none) p).transition = none := by
    simp [setTransition, updBlock]
  refine ⟨htr, ?_, ?_, ?_⟩
  · simp [Block.isLastBlock, Block.getTransition, htr]
  · intro b
    simp only [setTransition]
    exact preds_updBlock_pres σ p b _ (fun _ => rfl)
  · simp [Block.isEmpty, Block.isLastBlock, Block.getTransition, htr]

/-- C7: after `link(successor)` the block's transition is a fresh
unconditional jump to `successor` and the block is registered as a
predecessor of `successor`; after `link(cond)` the transition is `cond` and
the block is a predecessor of both `cond.yes` and `cond.no`.  The prior jump
value is replaced by the fresh one (its release, `delete _transition`, is
its disappearance from the state in this value embedding). -/
theorem link_postconditions :
    ∀ (σ : Heap) (p next : BlockId) (cond : JumpCond),
      ((link σ p next) p).getTransition = some (Jump.always ⟨next⟩)
      ∧ p ∈ ((link σ p next) next).predecessors
      ∧ ((linkCond σ p cond) p).getTransition = some (Jump.cond cond)
      ∧ p ∈ ((linkCond σ p cond) cond.yes).predecessors
      ∧ p ∈ ((linkCond σ p cond) cond.no).predecessors := by
  intro σ p next cond
  refine ⟨?_, ?_, ?_, ?_, ?_⟩
  · show ((link σ p next) p).transition = _
    rw [link_transition]; simp
  · rw [mem_link_predecessors]; simp
  · show ((linkCond σ p cond) p).transition = _
    rw [linkCond_transition]; simp
  · rw [mem_linkCond_predecessors]; simp
  · rw [mem_linkCond_predecessors]; simp

/-- C3: `relink(oldChild, newChild)` against a block whose current jump does
not name `oldChild` as a destination returns failure and leaves the whole
heap (every block's transition and predecessor set) exactly unchanged. -/
theorem relink_missing_edge :
    ∀ (σ : Heap) (p oldC newC : BlockId),
      oldC ∉ (σ p).transitionDests →
      relink σ p oldC newC = (false, σ) := by
  intro σ p o n h
  cases htr : (σ p).transition with
  | none => exact relink_eq_of_none o n htr
  | some j =>
      refine relink_eq_of_not_dest o n htr (fun hmem => h ?_)
      rw [transitionDests_of_some htr]; exact hmem

/-- Witness for C3 at a concrete heap: block 1 is terminal, so relinking
the absent edge 1→0 fails and returns the heap unchanged. -/
theorem relink_missing_edge_witness :
    (0 : BlockId) ∉ (heap0 1).transitionDests
    ∧ relink heap0 1 0 2 = (false, heap0) :=
  ⟨by decide, relink_missing_edge heap0 1 0 2 (by decide)⟩

/-- C2: for a block `P` with conditional jump to `A` (`yes`) and `B` (`no`)
— or symmetrically `B` (`yes`) and `A` (`no`) — with `A`, `B`, `C` pairwise
distinct, `relink(A, C)` succeeds, rewrites the jump to target `C` and `B`,
removes `P` from `A.predecessors`, adds it to `C.predecessors`, and leaves
`B.predecessors` unchanged. -/
theorem relink_correct :
    (∀ (σ : Heap) (p a b c : BlockId) (cnd : Atom),
      (σ p).transition = some (.cond ⟨a, b, cnd⟩) → a ≠ b → a ≠ c → b ≠ c →
        (relink σ p a c).1 = true
        ∧ ((relink σ p a c).2 p).getTransition = some (.cond ⟨c, b, cnd⟩)
        ∧ p ∉ ((relink σ p a c).2 a).predecessors
        ∧ p ∈ ((relink σ p a c).2 c).predecessors
        ∧ ((relink σ p a c).2 b).predecessors = (σ b).predecessors)
    ∧ (∀ (σ : Heap) (p a b c : BlockId) (cnd : Atom),
      (σ p).transition = some (.cond ⟨b, a, cnd⟩) → a ≠ b → a ≠ c → b ≠ c →
        (relink σ p a c).1 = true
        ∧ ((relink σ p a c).2 p).getTransition = some (.cond ⟨b, c, cnd⟩)
        ∧ p ∉ ((relink σ p a c).2 a).predecessors
        ∧ p ∈ ((relink σ p a c).2 c).predecessors
        ∧ ((relink σ p a c).2 b).predecessors = (σ b).predecessors) := by
  constructor
  · intro σ p a b c cnd htr hab hac hbc
    have hrw := relink_eq_of_dest a c htr (by simp [Jump.destinations])
    have hj : (Jump.cond ⟨a, b, cnd⟩).replaceDest a c = Jump.cond ⟨c, b, cnd⟩ := by
      simp [Jump.replaceDest, Ne.symm hab]
    rw [hrw, hj]
    dsimp only
    refine ⟨rfl, ?_, ?_, ?_, ?_⟩
    · show (_ : Block).transition = _
      rw [transition_updBlock_addPred, transition_updBlock_removePred, updBlock_same]
    · rw [updBlock_other _ _ _ hac, updBlock_same]
      simp [preds_updBlock_set]
    · rw [updBlock_same]
      simp
    · rw [updBlock_other _ _ _ hbc, updBlock_other _ _ _ (Ne.symm hab)]
      exact preds_updBlock_set _ _ _ _
  · intro σ p a b c cnd htr hab hac hbc
    have hrw := relink_eq_of_dest a c htr (by simp [Jump.destinations])
    have hj : (Jump.cond ⟨b, a, cnd⟩).replaceDest a c = Jump.cond ⟨b, c, cnd⟩ := by
      simp [Jump.replaceDest, Ne.symm hab]
    rw [hrw, hj]
    dsimp only
    refine ⟨rfl, ?_, ?_, ?_, ?_⟩
    · show (_ : Block).transition = _
      rw [transition_updBlock_addPred, transition_updBlock_removePred, updBlock_same]
    · rw [updBlock_other _ _ _ hac, updBlock_same]
      simp [preds_updBlock_set]
    · rw [updBlock_same]
      simp
    · rw [updBlock_other _ _ _ hbc, updBlock_other _ _ _ (Ne.symm hab)]
      exact preds_updBlock_set _ _ _ _

/-- Witness for C2 on the concrete diamond heap `relinkHeap`:
`relink(1, 3)` on block 0 (conditional to 1/2) succeeds as described. -/
theorem relink_correct_witness :
    (relink relinkHeap 0 1 3).1 = true
    ∧ ((relink relinkHeap 0 1 3).2 0).getTransition = some (.cond ⟨3, 2, .int ⟨0⟩⟩)
    ∧ (0 : BlockId) ∉ ((relink relinkHeap 0 1 3).2 1).predecessors
    ∧ (0 : BlockId) ∈ ((relink relinkHeap 0 1 3).2 3).predecessors
    ∧ ((relink relinkHeap 0 1 3).2 2).predecessors = (relinkHeap 2).predecessors :=
  relink_correct.1 relinkHeap 0 1 2 3 (.int ⟨0⟩) rfl
    (by decide) (by decide) (by decide)

/-- C4: `Function::argument(i)` yields `parametersIds[i]` for
`i < parametersIds.size()` and `refParameterIds[i - parametersIds.size()]`
for `i` up to the total arity; for 2 ordinary + 1 ref parameter,
`argument(0)`/`argument(1)` give the ordinary ids in order and
`argument(2)` gives the ref id. -/
theorem argument_mapping :
    (∀ (f : Function) (i : Nat), i < f.parametersIds.length →
        f.argument i = Except.ok (f.parametersIds.getD i 0))
    ∧ (∀ (f : Function) (i : Nat), f.parametersIds.length ≤ i →
        i < f.parametersIds.length + f.refParameterIds.length →
        f.argument i = Except.ok (f.refParameterIds.getD (i - f.parametersIds.length) 0))
    ∧ exFun21.argument 0 = Except.ok 10 ∧ exFun21.argument 1 = Except.ok 11
    ∧ exFun21.argument 2 = Except.ok 12 := by
  refine ⟨?_, ?_, rfl, rfl, rfl⟩
  · intro f i h
    simp [Function.argument, h]
  · intro f i h1 h2
    have h3 : ¬ i < f.parametersIds.length := Nat.not_lt.mpr h1
    have h4 : i - f.parametersIds.length < f.refParameterIds.length := by omega
    simp [Function.argument, h3, h4]

/-- Witness for C4: `argument(1)` on the 2+1 fixture hits the second
ordinary parameter. -/
theorem argument_mapping_witness :
    (1 : Nat) < exFun21.parametersIds.length
    ∧ exFun21.argument 1 = Except.ok (exFun21.parametersIds.getD 1 0) :=
  ⟨by decide, argument_mapping.1 exFun21 1 (by decide)⟩

/-- C5 counterexample: on a function of arity 1 (one ordinary parameter),
`argument(2)` throws, but the message names index `1` — the requested index
*minus* `parametersIds.size()` (the code prints `idx` after
`idx -= parametersIds.size()`), and the digit `2` of the requested index
does not occur in the message at all. -/
theorem argument_oor_counterexample :
    exFun1.argument 2
      = Except.error "Argument index is out of range: total args: 1 index 1"
    ∧ ¬ ("2".toList <:+:
        "Argument index is out of range: total args: 1 index 1".toList) := by
  exact ⟨rfl, by decide⟩

/-- C5 amended: for every `i ≥ arguments()`, `argument(i)` fails with an
out-of-range error naming the total arity and the *decremented* index
`i - parametersIds.size()` (not the requested index), and never returns a
sentinel value. -/
theorem argument_oor :
    ∀ (f : Function) (i : Nat), f.arguments ≤ i →
      f.argument i = Except.error ("Argument index is out of range: total args: "
        ++ toString f.arguments ++ " index "
        ++ toString (i - f.parametersIds.length)) := by
  intro f i h
  unfold Function.arguments at h
  have h1 : ¬ i < f.parametersIds.length := by omega
  have h2 : ¬ i - f.parametersIds.length < f.refParameterIds.length := by omega
  simp [Function.argument, h1, h2, Function.arguments]

/-- The block domain of the C1 counterexample. -/
def exDom : Finset BlockId := {0, 1, 2}

/-- C1 counterexample: starting from a consistent graph of terminal blocks,
`link(0→1)` keeps the invariant, but a second `link(0→2)` on the same block
(which already had a transition to the different destination 1) breaks it:
`link` never removes block 0 from the predecessor set of the old
destination 1, so 1 keeps the stale predecessor 0. -/
theorem predecessor_invariant_counterexample :
    predConsistent heap0 exDom
    ∧ predConsistent (link heap0 0 1) exDom
    ∧ ¬ predConsistent (link (link heap0 0 1) 0 2) exDom := by
  refine ⟨by decide, by decide, by decide⟩

/-- C1 amended: the bidirectional predecessor-consistency invariant is
preserved by a `link` call (either overload) on a block with *no* prior
transition, and by every `relink` call (successful or failed); after a
`link` on a block that already had a transition only the forward direction
survives — every destination of the block's *current* jump has the block
among its predecessors — while the old destination may retain it as a
stale predecessor entry. -/
theorem predecessor_invariant :
    (∀ (σ : Heap) (dom : Finset BlockId) (p next : BlockId),
      (σ p).transition = none → predConsistent σ dom →
        predConsistent (link σ p next) dom)
    ∧ (∀ (σ : Heap) (dom : Finset BlockId) (p : BlockId) (jc : JumpCond),
      (σ p).transition = none → predConsistent σ dom →
        predConsistent (linkCond σ p jc) dom)
    ∧ (∀ (σ : Heap) (dom : Finset BlockId) (p oldC newC : BlockId),
      predConsistent σ dom → predConsistent (relink σ p oldC newC).2 dom)
    ∧ (∀ (σ : Heap) (p next b : BlockId),
      b ∈ ((link σ p next) p).transitionDests → p ∈ ((link σ p next) b).predecessors)
    ∧ (∀ (σ : Heap) (p : BlockId) (jc : JumpCond) (b : BlockId),
      b ∈ ((linkCond σ p jc) p).transitionDests
        → p ∈ ((linkCond σ p jc) b).predecessors) := by
  refine ⟨?_, ?_, ?_, ?_, ?_⟩
  · intro σ dom p next hnone hpc q hq b hb
    rw [link_transitionDests, mem_link_predecessors]
    by_cases hq' : q = p
    · subst hq'
      rw [if_pos rfl]
      by_cases hb' : b = next
      · subst hb'; simp
      · have h0 : q ∉ (σ b).predecessors := by
          intro hmem
          have h1 := (hpc q hq b hb).mpr hmem
          rw [transitionDests_of_none hnone] at h1
          simp at h1
        simp [hb', h0]
    · rw [if_neg hq']
      have h1 := hpc q hq b hb
      simp only [hq', false_and, or_false]
      exact h1
  · intro σ dom p jc hnone hpc q hq b hb
    rw [linkCond_transitionDests, mem_linkCond_predecessors]
    by_cases hq' : q = p
    · subst hq'
      rw [if_pos rfl]
      have h0 : q ∉ (σ b).predecessors := by
        intro hmem
        have h1 := (hpc q hq b hb).mpr hmem
        rw [transitionDests_of_none hnone] at h1
        simp at h1
      simp [h0]
    · rw [if_neg hq']
      have h1 := hpc q hq b hb
      simp only [hq', false_and, or_false]
      exact h1
  · intro σ dom p oldC newC hpc
    cases htr : (σ p).transition with
    | none =>
        rw [relink_eq_of_none oldC newC htr]
        exact hpc
    | some j =>
        by_cases ho : oldC ∈ j.destinations
        · intro q hq b hb
          rw [relink_success_dests newC htr ho, relink_success_preds newC htr ho]
          have hpb : q ∈ (σ b).predecessors ↔ b ∈ (σ q).transitionDests :=
            (hpc q hq b hb).symm
          by_cases hq' : q = p
          · subst hq'
            rw [if_pos rfl]
            by_cases hbn : b = newC
            · subst hbn
              simp [mem_replaceDest_new _ ho]
            · by_cases hbo : b = oldC
              · subst hbo
                have hon : b ≠ newC := hbn
                have h2 : b ∉ (j.replaceDest b newC).destinations :=
                  not_mem_replaceDest hon
                simp [h2, hbn]
              · rw [mem_replaceDest_other hbn hbo]
                rw [transitionDests_of_some htr] at hpb
                simp [hbn, hbo, hpb]
          · rw [if_neg hq']
            constructor
            · intro h
              exact Or.inr ⟨hpb.mpr h, fun hc => hq' hc.2⟩
            · rintro (⟨h1, _⟩ | ⟨h2, _⟩)
              · exact absurd h1 hq'
              · exact hpb.mp h2
        · rw [relink_eq_of_not_dest oldC newC htr ho]
          exact hpc
  · intro σ p next b hb
    rw [link_transitionDests, if_pos rfl] at hb
    simp only [List.mem_singleton] at hb
    rw [mem_link_predecessors]
    exact Or.inr ⟨rfl, hb⟩
  · intro σ p jc b hb
    rw [linkCond_transitionDests, if_pos rfl] at hb
    simp only [List.mem_cons, List.mem_singleton, List.not_mem_nil, or_false] at hb
    rw [mem_linkCond_predecessors]
    exact Or.inr ⟨rfl, hb⟩

/-- Witness for the amended C1: linking terminal block 0 to block 1 in the
all-terminal heap preserves the invariant on the domain `{0, 1, 2}`. -/
theorem predecessor_invariant_witness :
    (heap0 0).transition = none ∧ predConsistent heap0 exDom
    ∧ predConsistent (link heap0 0 1) exDom :=
  ⟨rfl, by decide, predecessor_invariant.1 heap0 exDom 0 1 rfl (by decide)⟩

/-- Witness for the amended C5 at the concrete arity-1 fixture. -/
theorem argument_oor_witness :
    exFun1.arguments ≤ 2
    ∧ exFun1.argument 2 = Except.error ("Argument index is out of range: total args: "
        ++ toString exFun1.arguments ++ " index "
        ++ toString (2 - exFun1.parametersIds.length)) :=
  ⟨by decide, argument_oor exFun1 2 (by decide)⟩

/-- Heap fixture for C9: blocks 0 and 1 form a loop (0→1 via a back-edge
1→0), so block 1 is reachable from entry 0 only through the cycle. -/
def loopHeap : Heap := fun i =>
  if i = 0 then ⟨"L0", some (.always ⟨1⟩), {1}, []⟩
  else if i = 1 then ⟨"L1", some (.always ⟨0⟩), {0}, []⟩
  else ⟨"out", none, ∅, []⟩

/-- Domain of the loop fixture. -/
def loopDom : Finset BlockId := {0, 1}

/-- Function owning the loop, entry block 0. -/
def loopFun : Function := ⟨"loop", 2, 0, [], [], [], .VT_Unit, none⟩

/-- Program container owning `loopFun`. -/
def loopIr : SimpleIr := ⟨[], [loopFun], []⟩

/-- C9: destroying a `SimpleIr` releases every `Function` it owns
(`~SimpleIr`, ir.h:611-614), and the (spec-modelled) `Function` teardown
releases every block reachable from the entry — including blocks reachable
only through loop back-edges — exactly once: the release list has no
duplicates and contains precisely the reachable blocks.  Each released
block's own statements and jump are freed with it by `Block::~Block`
(ir.h:434-438). -/
theorem teardown_complete :
    (∀ (ir : SimpleIr) (f : Function),
      f ∈ ir.functions → f ∈ ir.releasedFunctions)
    ∧ (∀ (σ : Heap) (dom : Finset BlockId) (f : Function),
      graphClosed σ dom → f.entry ∈ dom →
        (Function.releaseList σ dom f).Nodup
        ∧ (∀ b : BlockId,
            b ∈ Function.releaseList σ dom f ↔ Reaches σ f.entry b)) := by
  constructor
  · intro ir f h
    exact h
  · intro σ dom f hcl he
    constructor
    · exact (reachIter σ f.entry dom.card).sort_nodup (· ≤ ·)
    · intro b
      unfold Function.releaseList
      rw [Finset.mem_sort]
      constructor
      · exact mem_reachIter_reaches dom.card b
      · intro hr
        obtain ⟨k, hk⟩ := reaches_mem_reachIter hr
        exact reachIter_subset_final hcl he k hk

/-- Witness for C9 on the two-block loop: the container releases its one
function, and the release list for the loop is duplicate-free and contains
block 1, which is reachable from entry 0 only via the cycle. -/
theorem teardown_complete_witness :
    graphClosed loopHeap loopDom ∧ loopFun.entry ∈ loopDom
    ∧ loopFun ∈ loopIr.releasedFunctions
    ∧ (Function.releaseList loopHeap loopDom loopFun).Nodup
    ∧ ((1 : BlockId) ∈ Function.releaseList loopHeap loopDom loopFun
        ↔ Reaches loopHeap loopFun.entry 1) :=
  ⟨by decide, by decide,
   teardown_complete.1 loopIr loopFun (by simp [loopIr, SimpleIr.releasedFunctions]),
   (teardown_complete.2 loopHeap loopDom loopFun (by decide) (by decide)).1,
   (teardown_complete.2 loopHeap loopDom loopFun (by decide) (by decide)).2 1⟩

/-- C8: for every concrete node of variant `X` of the closed 17-variant set,
`isX` returns `true`, `asX` returns the node itself and `getType` returns
`IT_X`, while for a node of any other variant `isX` returns `false` and
`asX` returns `NULL` (`none`); all queries are total Lean functions, so none
of them can throw. -/
theorem narrowing_queries :
    ((∀ x, IrElement.isBinOp (IrElement.binOp x) = true
        ∧ IrElement.asBinOp (IrElement.binOp x) = some x
        ∧ IrElement.getType (IrElement.binOp x) = IrType.IT_BinOp)
      ∧ (∀ e : IrElement, IrElement.getType e ≠ IrType.IT_BinOp →
          IrElement.isBinOp e = false ∧ IrElement.asBinOp e = none))
    ∧
    ((∀ x, IrElement.isUnOp (IrElement.unOp x) = true
        ∧ IrElement.asUnOp (IrElement.unOp x) = some x
        ∧ IrElement.getType (IrElement.unOp x) = IrType.IT_UnOp)
      ∧ (∀ e : IrElement, IrElement.getType e ≠ IrType.IT_UnOp →
          IrElement.isUnOp e = false ∧ IrElement.asUnOp e = none))
    ∧
    ((∀ x, IrElement.isVariable (IrElement.var x) = true
        ∧ IrElement.asVariable (IrElement.var x) = some x
        ∧ IrElement.getType (IrElement.var x) = IrType.IT_Variable)
      ∧ (∀ e : IrElement, IrElement.getType e ≠ IrType.IT_Variable →
          IrElement.isVariable e = false ∧ IrElement.asVariable e = none))
    ∧
    ((∀ x, IrElement.isReturn (IrElement.ret x) = true
        ∧ IrElement.asReturn (IrElement.ret x) = some x
        ∧ IrElement.getType (IrElement.ret x) = IrType.IT_Return)
      ∧ (∀ e : IrElement, IrElement.getType e ≠ IrType.IT_Return →
          IrElement.isReturn e = false ∧ IrElement.asReturn e = none))
    ∧
    ((∀ x, IrElement.isPhi (IrElement.phi x) = true
        ∧ IrElement.asPhi (IrElement.phi x) = some x
        ∧ IrElement.getType (IrElement.phi x) = IrType.IT_Phi)
      ∧ (∀ e : IrElement, IrElement.getType e ≠ IrType.IT_Phi →
          IrElement.isPhi e = false ∧ IrElement.asPhi e = none))
    ∧
    ((∀ x, IrElement.isInt (IrElement.int x) = true
        ∧ IrElement.asInt (IrElement.int x) = some x
        ∧ IrElement.getType (IrElement.int x) = IrType.IT_Int)
      ∧ (∀ e : IrElement, IrElement.getType e ≠ IrType.IT_Int →
          IrElement.isInt e = false ∧ IrElement.asInt e = none))
    ∧
    ((∀ x, IrElement.isDouble (IrElement.double x) = true
        ∧ IrElement.asDouble (IrElement.double x) = some x
        ∧ IrElement.getType (IrElement.double x) = IrType.IT_Double)
      ∧ (∀ e : IrElement, IrElement.getType e ≠ IrType.IT_Double →
          IrElement.isDouble e = false ∧ IrElement.asDouble e = none))
    ∧
    ((∀ x, IrElement.isPtr (IrElement.ptr x) = true
        ∧ IrElement.asPtr (IrElement.ptr x) = some x
        ∧ IrElement.getType (IrElement.ptr x) = IrType.IT_Ptr)
      ∧ (∀ e : IrElement, IrElement.getType e ≠ IrType.IT_Ptr →
          IrElement.isPtr e = false ∧ IrElement.asPtr e = none))
    ∧
    ((∀ x, IrElement.isBlock (IrElement.block x) = true
        ∧ IrElement.asBlock (IrElement.block x) = some x
        ∧ IrElement.getType (IrElement.block x) = IrType.IT_Block)
      ∧ (∀ e : IrElement, IrElement.getType e ≠ IrType.IT_Block →
          IrElement.isBlock e = false ∧ IrElement.asBlock e = none))
    ∧
    ((∀ x, IrElement.isAssignment (IrElement.assignment x) = true
        ∧ IrElement.asAssignment (IrElement.assignment x) = some x
        ∧ IrElement.getType (IrElement.assignment x) = IrType.IT_Assignment)
      ∧ (∀ e : IrElement, IrElement.getType e ≠ IrType.IT_Assignment →
          IrElement.isAssignment e = false ∧ IrElement.asAssignment e = none))
    ∧
    ((∀ x, IrElement.isCall (IrElement.call x) = true
        ∧ IrElement.asCall (IrElement.call x) = some x
        ∧ IrElement.getType (IrElement.call x) = IrType.IT_Call)
      ∧ (∀ e : IrElement, IrElement.getType e ≠ IrType.IT_Call →
          IrElement.isCall e = false ∧ IrElement.asCall e = none))
    ∧
    ((∀ x, IrElement.isPrint (IrElement.print x) = true
        ∧ IrElement.asPrint (IrElement.print x) = some x
        ∧ IrElement.getType (IrElement.print x) = IrType.IT_Print)
      ∧ (∀ e : IrElement, IrElement.getType e ≠ IrType.IT_Print →
          IrElement.isPrint e = false ∧ IrElement.asPrint e = none))
    ∧
    ((∀ x, IrElement.isFunction (IrElement.function x) = true
        ∧ IrElement.asFunction (IrElement.function x) = some x
        ∧ IrElement.getType (IrElement.function x) = IrType.IT_Function)
      ∧ (∀ e : IrElement, IrElement.getType e ≠ IrType.IT_Function →
          IrElement.isFunction e = false ∧ IrElement.asFunction e = none))
    ∧
    ((∀ x, IrElement.isJumpAlways (IrElement.jumpAlways x) = true
        ∧ IrElement.asJumpAlways (IrElement.jumpAlways x) = some x
        ∧ IrElement.getType (IrElement.jumpAlways x) = IrType.IT_JumpAlways)
      ∧ (∀ e : IrElement, IrElement.getType e ≠ IrType.IT_JumpAlways →
          IrElement.isJumpAlways e = false ∧ IrElement.asJumpAlways e = none))
    ∧
    ((∀ x, IrElement.isJumpCond (IrElement.jumpCond x) = true
        ∧ IrElement.asJumpCond (IrElement.jumpCond x) = some x
        ∧ IrElement.getType (IrElement.jumpCond x) = IrType.IT_JumpCond)
      ∧ (∀ e : IrElement, IrElement.getType e ≠ IrType.IT_JumpCond →
          IrElement.isJumpCond e = false ∧ IrElement.asJumpCond e = none))
    ∧
    ((∀ x, IrElement.isWriteRef (IrElement.writeRef x) = true
        ∧ IrElement.asWriteRef (IrElement.writeRef x) = some x
        ∧ IrElement.getType (IrElement.writeRef x) = IrType.IT_WriteRef)
      ∧ (∀ e : IrElement, IrElement.getType e ≠ IrType.IT_WriteRef →
          IrElement.isWriteRef e = false ∧ IrElement.asWriteRef e = none))
    ∧
    ((∀ x, IrElement.isReadRef (IrElement.readRef x) = true
        ∧ IrElement.asReadRef (IrElement.readRef x) = some x
        ∧ IrElement.getType (IrElement.readRef x) = IrType.IT_ReadRef)
      ∧ (∀ e : IrElement, IrElement.getType e ≠ IrType.IT_ReadRef →
          IrElement.isReadRef e = false ∧ IrElement.asReadRef e = none)) := by
  refine ⟨?_, ?_, ?_, ?_, ?_, ?_, ?_, ?_, ?_, ?_, ?_, ?_, ?_, ?_, ?_, ?_, ?_⟩
  · exact ⟨fun x => ⟨rfl, rfl, rfl⟩,
      fun e h => by cases e <;> first | exact ⟨rfl, rfl⟩ | exact absurd rfl h⟩
  · exact ⟨fun x => ⟨rfl, rfl, rfl⟩,
      fun e h => by cases e <;> first | exact ⟨rfl, rfl⟩ | exact absurd rfl h⟩
  · exact ⟨fun x => ⟨rfl, rfl, rfl⟩,
      fun e h => by cases e <;> first | exact ⟨rfl, rfl⟩ | exact absurd rfl h⟩
  · exact ⟨fun x => ⟨rfl, rfl, rfl⟩,
      fun e h => by cases e <;> first | exact ⟨rfl, rfl⟩ | exact absurd rfl h⟩
  · exact ⟨fun x => ⟨rfl, rfl, rfl⟩,
      fun e h => by cases e <;> first | exact ⟨rfl, rfl⟩ | exact absurd rfl h⟩
  · exact ⟨fun x => ⟨rfl, rfl, rfl⟩,
      fun e h => by cases e <;> first | exact ⟨rfl, rfl⟩ | exact absurd rfl h⟩
  · exact ⟨fun x => ⟨rfl, rfl, rfl⟩,
      fun e h => by cases e <;> first | exact ⟨rfl, rfl⟩ | exact absurd rfl h⟩
  · exact ⟨fun x => ⟨rfl, rfl, rfl⟩,
      fun e h => by cases e <;> first | exact ⟨rfl, rfl⟩ | exact absurd rfl h⟩
  · exact ⟨fun x => ⟨rfl, rfl, rfl⟩,
      fun e h => by cases e <;> first | exact ⟨rfl, rfl⟩ | exact absurd rfl h⟩
  · exact ⟨fun x => ⟨rfl, rfl, rfl⟩,
      fun e h => by cases e <;> first | exact ⟨rfl, rfl⟩ | exact absurd rfl h⟩
  · exact ⟨fun x => ⟨rfl, rfl, rfl⟩,
      fun e h => by cases e <;> first | exact ⟨rfl, rfl⟩ | exact absurd rfl h⟩
  · exact ⟨fun x => ⟨rfl, rfl, rfl⟩,
      fun e h => by cases e <;> first | exact ⟨rfl, rfl⟩ | exact absurd rfl h⟩
  · exact ⟨fun x => ⟨rfl, rfl, rfl⟩,
      fun e h => by cases e <;> first | exact ⟨rfl, rfl⟩ | exact absurd rfl h⟩
  · exact ⟨fun x => ⟨rfl, rfl, rfl⟩,
      fun e h => by cases e <;> first | exact ⟨rfl, rfl⟩ | exact absurd rfl h⟩
  · exact ⟨fun x => ⟨rfl, rfl, rfl⟩,
      fun e h => by cases e <;> first | exact ⟨rfl, rfl⟩ | exact absurd rfl h⟩
  · exact ⟨fun x => ⟨rfl, rfl, rfl⟩,
      fun e h => by cases e <;> first | exact ⟨rfl, rfl⟩ | exact absurd rfl h⟩
  · exact ⟨fun x => ⟨rfl, rfl, rfl⟩,
      fun e h => by cases e <;> first | exact ⟨rfl, rfl⟩ | exact absurd rfl h⟩

/-- Witness for C8: the `Int` literal node answers the `BinOp` queries with
`false`/`none`. -/
theorem narrowing_queries_witness :
    IrElement.isBinOp (IrElement.int ⟨0⟩) = false
    ∧ IrElement.asBinOp (IrElement.int ⟨0⟩) = none :=
  narrowing_queries.1.2 (IrElement.int ⟨0⟩) (by decide)

end IR
